import Mathlib

/-!
Shallow embedding of the QSPI NOR-flash block-device driver
(`QSPIFBlockDevice.cpp`): geometry model, address-to-region lookup,
erase decomposition, program page split, busy polling and the SFDP
(discovery table) parsing paths, together with theorems about them.
Machine integers are modelled by `Nat` (and `Int` where the C code uses
signed arithmetic); fallible operations return `Option`, where `none`
stands for a loop that did not finish within its fuel.
-/

set_option maxRecDepth 8000

/-- Block-device status codes of the driver (the QSPIF error enumeration). -/
inductive BdStatus where
  | ok
  | deviceError
  | parsingFailed
  | readyFailed
  | invalidEraseParams
  | wrenFailed
  deriving DecidableEq

/-- One erase transaction handed to the transport: the erase instruction
opcode and the address word passed to command_transfer. -/
structure EraseTxn where
  inst : Nat
  addr : Nat
  deriving DecidableEq

/-- Geometry and negotiated-erase state of one device, as populated by init:
device size, page size, region count, per-region high boundaries and
erase-type bitmaps, the four erase types (instruction and size each) and the
minimum common erase size.  C arrays are modelled as lists read with `getD`. -/
structure DeviceState where
  deviceSize : Nat
  pageSize : Nat
  regionsCount : Nat
  regionHighBoundary : List Nat
  regionEraseTypesBitfield : List Nat
  eraseTypeInstArr : List Nat
  eraseTypeSizeArr : List Nat
  minCommonEraseSize : Nat

/-- The descending for-loop of `_utils_find_addr_region`: the argument is
one past the loop counter, so the first comparison is against
`regionHighBoundary[regionsCount - 2]`; falling out of the loop yields -1. -/
def findAddrRegionLoop (st : DeviceState) (offset : Nat) : Nat → Int
  | 0 => -1
  | i + 1 =>
    if offset > st.regionHighBoundary.getD i 0 then (i : Int) + 1
    else findAddrRegionLoop st offset i

/-- `QSPIFBlockDevice::_utils_find_addr_region`: region index of an offset,
or -1. -/
def utils_find_addr_region (st : DeviceState) (offset : Nat) : Int :=
  if offset > st.deviceSize ∨ st.regionsCount = 0 then -1
  else if st.regionsCount = 1 then 0
  else findAddrRegionLoop st offset (st.regionsCount - 1)

/-- The ascending bit scan shared by `get_erase_size(addr)` and
`_sfdp_parse_sector_map_table`: size of the lowest-indexed erase type whose
bit is set in `bits`, or the default when no bit of the low nibble is set. -/
def firstSetEraseTypeSize (sizeArr : List Nat) (bits : Nat) (dflt : Nat) : Nat :=
  if bits.testBit 0 then sizeArr.getD 0 0
  else if bits.testBit 1 then sizeArr.getD 1 0
  else if bits.testBit 2 then sizeArr.getD 2 0
  else if bits.testBit 3 then sizeArr.getD 3 0
  else dflt

/-- `QSPIFBlockDevice::get_erase_size(bd_addr_t addr)`: minimal erase size
supported by the region the address belongs to. -/
def get_erase_size (st : DeviceState) (addr : Nat) : Nat :=
  let region := utils_find_addr_region st addr
  if region = -1 then st.minCommonEraseSize
  else
    firstSetEraseTypeSize st.eraseTypeSizeArr
      (st.regionEraseTypesBitfield.getD region.toNat 0) st.minCommonEraseSize

/-- Two's-complement reinterpretation of the low 32 bits of a value: the
result of a C conversion to 32-bit `int`. -/
def toInt32 (n : Nat) : Int :=
  if n % 2 ^ 32 < 2 ^ 31 then (n % 2 ^ 32 : Int) else (n % 2 ^ 32 : Int) - 2 ^ 32

/-- The descending loop of `_utils_iterate_next_largest_erase_type`.
The fuel argument is one past the loop counter (so it starts at 4 and the
first examined type index is 3).  Returns the (possibly pruned) bitfield
together with the chosen type; `largest` tracks the last set bit seen, which
is returned when no type passes the strict size and boundary tests.  The
unsigned type sizes are compared after the source's `(int)` cast. -/
def iterateEraseTypeLoop (st : DeviceState) (size offset boundry : Int) :
    Nat → Nat → Nat → Nat × Nat
  | 0, bf, largest => (bf, largest)
  | i + 1, bf, largest =>
    if bf.testBit i then
      if size > toInt32 (st.eraseTypeSizeArr.getD i 0) ∧
          boundry - offset > toInt32 (st.eraseTypeSizeArr.getD i 0) then (bf, i)
      else iterateEraseTypeLoop st size offset boundry i (bf - 2 ^ i) i
    else iterateEraseTypeLoop st size offset boundry i bf largest

/-- `QSPIFBlockDevice::_utils_iterate_next_largest_erase_type`. -/
def utils_iterate_next_largest_erase_type (st : DeviceState) (bf : Nat)
    (size offset boundry : Int) : Nat × Nat :=
  iterateEraseTypeLoop st size offset boundry 4 bf 0

/-- The address word `_qspi_send_erase_command` passes to the transport:
`((int) addr) & 0x00FFF000`. -/
def qspi_send_erase_command_addr (addr : Nat) : Nat :=
  addr &&& 0xFFF000

/-- The erase while-loop of `QSPIFBlockDevice::erase`, with the write-enable
and busy-poll steps assumed to succeed; the trace collects the erase
transactions sent to the transport.  Widths follow the C source: `addr` is
a uint64 (additions wrap at 2^64), `size` is a 32-bit `int` carried as its
unsigned 32-bit pattern `su` (its signed value is `toInt32 su`), `offset`
and `chunk` are uint32_t with unsigned 32-bit arithmetic for
`offset + size` and `esize - offset`, and the type iterator receives
`(int) addr` and the boundary converted to `int`.  The C reads the
bitfield and boundary of a negative region index (undefined behaviour);
the model reads index `Int.toNat region`, that is 0.  `none` means the
fuel ran out. -/
def eraseLoop (st : DeviceState) :
    Nat → Nat → Nat → Int → Nat → List EraseTxn → Option (BdStatus × List EraseTxn)
  | 0, _, _, _, _, _ => none
  | fuel + 1, addr, su, region, bitfield, acc =>
    if toInt32 su ≤ 0 then some (BdStatus.ok, acc.reverse)
    else
      let boundry : Int := toInt32 (st.regionHighBoundary.getD region.toNat 0)
      let r := utils_iterate_next_largest_erase_type st bitfield (toInt32 su)
        (toInt32 addr) boundry
      let ty := r.2
      let esize : Nat := st.eraseTypeSizeArr.getD ty 0
      let offset : Nat := addr % esize % 2 ^ 32
      let chunk : Nat := if (offset + su) % 2 ^ 32 < esize then su
        else (esize + (2 ^ 32 - offset)) % 2 ^ 32
      let acc' : List EraseTxn :=
        { inst := st.eraseTypeInstArr.getD ty 0,
          addr := qspi_send_erase_command_addr addr } :: acc
      let addr' := (addr + chunk) % 2 ^ 64
      let su' := (su + (2 ^ 32 - chunk % 2 ^ 32)) % 2 ^ 32
      if toInt32 su' > 0 ∧ addr' > st.regionHighBoundary.getD region.toNat 0 then
        eraseLoop st fuel addr' su' (region + 1)
          (st.regionEraseTypesBitfield.getD (region + 1).toNat 0) acc'
      else
        eraseLoop st fuel addr' su' region r.1 acc'

/-- `QSPIFBlockDevice::erase(addr, in_size)`: the two precondition checks -
the bound check on the wrapping uint64 sum `addr + in_size` and the
alignment checks on the wrapped end addresses - followed by the
decomposition loop, whose `int size` starts as `(int) in_size` (the low 32
bits of the request size). -/
def erase (st : DeviceState) (addr inSize : Nat) : Option (BdStatus × List EraseTxn) :=
  let region := utils_find_addr_region st addr
  let bitfield := st.regionEraseTypesBitfield.getD region.toNat 0
  if (addr + inSize) % 2 ^ 64 > st.deviceSize then some (BdStatus.invalidEraseParams, [])
  else if addr % get_erase_size st addr ≠ 0 ∨
      ((addr + inSize) % 2 ^ 64) %
        get_erase_size st ((addr + inSize + (2 ^ 64 - 1)) % 2 ^ 64) ≠ 0 then
    some (BdStatus.invalidEraseParams, [])
  else eraseLoop st (inSize + 1) addr (inSize % 2 ^ 32) region bitfield []

/-- A uniform 1 MiB part with a single region and one 4 KiB erase type at
instruction 0x20. -/
def uniform4KPart : DeviceState where
  deviceSize := 0x100000
  pageSize := 256
  regionsCount := 1
  regionHighBoundary := [0xFFFFF]
  regionEraseTypesBitfield := [0x1]
  eraseTypeInstArr := [0x20, 0xFF, 0xFF, 0xFF]
  eraseTypeSizeArr := [4096, 1, 1, 1]
  minCommonEraseSize := 4096

/-- A 64 KiB part split into two contiguous 32 KiB regions covering
[0x0000, 0x7FFF] and [0x8000, 0xFFFF], each with the 4 KiB erase type. -/
def twoRegionPart : DeviceState where
  deviceSize := 0x10000
  pageSize := 256
  regionsCount := 2
  regionHighBoundary := [0x7FFF, 0xFFFF]
  regionEraseTypesBitfield := [0x1, 0x1]
  eraseTypeInstArr := [0x20, 0xFF, 0xFF, 0xFF]
  eraseTypeSizeArr := [4096, 1, 1, 1]
  minCommonEraseSize := 4096

/-- A 1 MiB single-region part supporting erase types
4 KiB at 0x20, 32 KiB at 0x52 and 64 KiB at 0xD8. -/
def mixedErasePart : DeviceState where
  deviceSize := 0x100000
  pageSize := 256
  regionsCount := 1
  regionHighBoundary := [0xFFFFF]
  regionEraseTypesBitfield := [0x7]
  eraseTypeInstArr := [0x20, 0x52, 0xD8, 0xFF]
  eraseTypeSizeArr := [4096, 32768, 65536, 1]
  minCommonEraseSize := 4096

/-- C1: the address-to-region lookup is not total on the device range: on a
two-region device it returns -1 for address 0, although region 0
(high boundary 0x7FFF) contains it, and for `addr = device_size` (which the
claim requires to be not-found) it returns region 0 on a single-region
device, because the guard tests `offset > device_size` strictly. -/
theorem c1_find_addr_region_code_bug :
    utils_find_addr_region twoRegionPart 0 = -1 ∧
    twoRegionPart.regionHighBoundary.getD 0 0 = 0x7FFF ∧
    utils_find_addr_region uniform4KPart uniform4KPart.deviceSize = 0 := by
  decide

/-- C2 counterexample: with erase types {4 KiB at 0x20, 32 KiB at 0x52,
64 KiB at 0xD8} in one region, `erase(0x8000, 0x11000)` does not issue the
claimed sequence 0xD8 at 0x8000, 0x52 at 0x18000, 0x20 at 0x20000. -/
theorem c2_counterexample :
    erase mixedErasePart 0x8000 0x11000 ≠
      some (BdStatus.ok,
        [⟨0xD8, 0x8000⟩, ⟨0x52, 0x18000⟩, ⟨0x20, 0x20000⟩]) := by
  decide

/-- C2 amended: `erase(0x8000, 0x11000)` issues exactly three erase
transactions, in order 0xD8 at 0x8000, 0x52 at 0x10000 and 0x20 at 0x18000.
Each step picks the largest erase type whose size is strictly smaller than
both the remaining size and the distance to the region's high boundary
(falling back to the smallest type still in the bitfield), and advances
`addr` and `size` by the distance to that type's next alignment boundary,
`esize - (addr mod esize)` - not by the type's full granularity. -/
theorem c2_amended_theorem :
    erase mixedErasePart 0x8000 0x11000 =
      some (BdStatus.ok,
        [⟨0xD8, 0x8000⟩, ⟨0x52, 0x10000⟩, ⟨0x20, 0x18000⟩]) := by
  decide

/-- C3 counterexample: the bound check computes `addr + in_size` in
wrapping uint64 arithmetic, so a range that mathematically overshoots the
device is not rejected when the sum wraps: `erase(0xFFFFFFFFFFFFF000,
0x2000)` on the 1 MiB part has addr + size = 2^64 + 0x1000 > device_size,
yet the wrapped sum 0x1000 passes the bound check, both 4 KiB alignment
checks pass, and the erase loop runs and issues erase transactions instead
of returning invalid-erase-params with an untouched device. -/
theorem c3_counterexample :
    0xFFFFFFFFFFFFF000 + 0x2000 > uniform4KPart.deviceSize ∧
    (0xFFFFFFFFFFFFF000 + 0x2000) % 2 ^ 64 ≤ uniform4KPart.deviceSize ∧
    erase uniform4KPart 0xFFFFFFFFFFFFF000 0x2000 ≠
      some (BdStatus.invalidEraseParams, []) := by
  decide

/-- C3 amended: if the wrapping uint64 sum (addr + size) mod 2^64 exceeds
the device size, or addr is misaligned with respect to the erase
granularity of its region, or the wrapped end (addr + size) mod 2^64 is
misaligned with respect to the granularity of the region containing
(addr + size - 1) mod 2^64, then `erase` returns invalid-erase-params and
issues no erase transaction; the bound check is on the wrapped sum, so a
mathematical overshoot whose uint64 addition wraps is not caught. -/
theorem c3_amended_theorem (st : DeviceState) (addr inSize : Nat)
    (h : (addr + inSize) % 2 ^ 64 > st.deviceSize ∨
      addr % get_erase_size st addr ≠ 0 ∨
      ((addr + inSize) % 2 ^ 64) %
        get_erase_size st ((addr + inSize + (2 ^ 64 - 1)) % 2 ^ 64) ≠ 0) :
    erase st addr inSize = some (BdStatus.invalidEraseParams, []) := by
  by_cases h1 : (addr + inSize) % 2 ^ 64 > st.deviceSize
  · simp only [erase]
    rw [if_pos h1]
  · have h2 := h.resolve_left h1
    simp only [erase]
    rw [if_neg h1, if_pos h2]

/-- C3 witness: `erase(0x1001, 4096)` on the uniform 4 KiB part violates the
alignment precondition and fails with invalid-erase-params, with no erase
transaction issued. -/
theorem c3_amended_theorem_witness :
    ((0x1001 + 4096) % 2 ^ 64 > uniform4KPart.deviceSize ∨
      0x1001 % get_erase_size uniform4KPart 0x1001 ≠ 0 ∨
      ((0x1001 + 4096) % 2 ^ 64) %
        get_erase_size uniform4KPart ((0x1001 + 4096 + (2 ^ 64 - 1)) % 2 ^ 64) ≠ 0) ∧
    erase uniform4KPart 0x1001 4096 = some (BdStatus.invalidEraseParams, []) :=
  ⟨by decide, c3_amended_theorem uniform4KPart 0x1001 4096 (by decide)⟩

/-- Transport events of the program path: write-enable, a program command
for `chunk` bytes at `addr`, and a busy-poll to ready. -/
inductive ProgEvent where
  | wren
  | prog (addr chunk : Nat)
  | poll
  deriving DecidableEq

/-- The while-loop of `QSPIFBlockDevice::program`, with the transport's
reported written-byte count supplied by `rep` (the code stores `chunk` into
`written_bytes` and lets the transport overwrite it).  Each chunk is
preceded by a write-enable; a report different from the chunk aborts with
device-error; otherwise the chunk is followed by a busy-poll.  Widths
follow the C source: `addr` and `size` are uint64 (additions wrap at 2^64),
`offset` and `chunk` are uint32_t, so the comparison `offset + size < page`
wraps at 2^64 and both chunk candidates are truncated to 32 bits
(`page - offset` with unsigned 32-bit subtraction).  The status component
is `none` when the fuel ran out with the request unfinished; the trace
keeps the events issued so far. -/
def programLoop (page : Nat) (rep : Nat → Nat → Nat) :
    Nat → Nat → Nat → List ProgEvent → Option BdStatus × List ProgEvent
  | 0, _, size, acc =>
    if size = 0 then (some BdStatus.ok, acc.reverse) else (none, acc.reverse)
  | fuel + 1, addr, size, acc =>
    if size = 0 then (some BdStatus.ok, acc.reverse)
    else
      let offset := addr % page % 2 ^ 32
      let chunk := (if (offset + size) % 2 ^ 64 < page then size
        else page + (2 ^ 32 - offset)) % 2 ^ 32
      let acc2 := ProgEvent.prog addr chunk :: ProgEvent.wren :: acc
      if rep addr chunk ≠ chunk then (some BdStatus.deviceError, acc2.reverse)
      else programLoop page rep fuel ((addr + chunk) % 2 ^ 64)
        ((size + (2 ^ 64 - chunk)) % 2 ^ 64) (ProgEvent.poll :: acc2)

/-- `QSPIFBlockDevice::program(buffer, addr, size)` over the event model. -/
def program (page : Nat) (rep : Nat → Nat → Nat) (addr size : Nat) :
    Option BdStatus × List ProgEvent :=
  programLoop page rep size addr size []

/-- Spec-side definition for the C4 refinement, following the claim's words:
the page-boundary split, whose first chunk is
`min(size, page_size - (addr % page_size))` and whose subsequent chunks are
full pages with a possible final remainder. -/
def specPageChunks (page : Nat) : Nat → Nat → Nat → List (Nat × Nat)
  | 0, _, _ => []
  | fuel + 1, addr, size =>
    if size = 0 then []
    else
      let c := min size (page - addr % page)
      (addr, c) :: specPageChunks page fuel (addr + c) (size - c)

/-- Spec-side definition for the C4 refinement: the event trace the claim
requires - every chunk preceded by a write-enable and followed by a
busy-poll. -/
def specProgramTrace (page addr size : Nat) : List ProgEvent :=
  (specPageChunks page size addr size).flatMap fun p =>
    [ProgEvent.wren, ProgEvent.prog p.1 p.2, ProgEvent.poll]

theorem programLoop_zero_size (page : Nat) (rep : Nat → Nat → Nat)
    (fuel addr : Nat) (acc : List ProgEvent) :
    programLoop page rep fuel addr 0 acc = (some BdStatus.ok, acc.reverse) := by
  cases fuel <;> simp [programLoop]

theorem specPageChunks_zero_size (page fuel addr : Nat) :
    specPageChunks page fuel addr 0 = [] := by
  cases fuel <;> simp [specPageChunks]

theorem program_chunk_eq_min (page addr size : Nat) (hp : 0 < page)
    (hp32 : page < 2 ^ 32) (hps : page + size < 2 ^ 64) :
    ((if (addr % page % 2 ^ 32 + size) % 2 ^ 64 < page then size
      else page + (2 ^ 32 - addr % page % 2 ^ 32)) % 2 ^ 32) =
      min size (page - addr % page) := by
  have hofs : addr % page < page := Nat.mod_lt _ hp
  have h1 : addr % page % 2 ^ 32 = addr % page := Nat.mod_eq_of_lt (by omega)
  rw [h1]
  have h2 : (addr % page + size) % 2 ^ 64 = addr % page + size :=
    Nat.mod_eq_of_lt (by omega)
  rw [h2, Nat.min_def]
  split_ifs <;> omega

theorem programLoop_exact (page : Nat) (hp : 0 < page) (hp32 : page < 2 ^ 32) :
    ∀ fuel addr size acc, size ≤ fuel → page + size < 2 ^ 64 →
      addr + size ≤ 2 ^ 64 →
      programLoop page (fun _ c => c) fuel addr size acc =
        (some BdStatus.ok, acc.reverse ++
          ((specPageChunks page fuel addr size).flatMap fun p =>
            [ProgEvent.wren, ProgEvent.prog p.1 p.2, ProgEvent.poll])) := by
  intro fuel
  induction fuel with
  | zero =>
    intro addr size acc h _ _
    have hs : size = 0 := Nat.le_zero.mp h
    simp [programLoop, specPageChunks, hs]
  | succ n ih =>
    intro addr size acc h hps has
    by_cases hs : size = 0
    · simp [programLoop, specPageChunks, hs]
    · have hofs : addr % page < page := Nat.mod_lt _ hp
      have hchunk := program_chunk_eq_min page addr size hp hp32 hps
      have hcle : min size (page - addr % page) ≤ size := Nat.min_le_left _ _
      have hc1 : 1 ≤ min size (page - addr % page) := by omega
      rw [programLoop, specPageChunks]
      simp only [hs, if_neg, ite_false, ne_eq, not_true_eq_false, hchunk]
      have hsz : (size + (2 ^ 64 - min size (page - addr % page))) % 2 ^ 64 =
          size - min size (page - addr % page) := by omega
      rw [hsz]
      rcases Nat.lt_or_ge (addr + min size (page - addr % page)) (2 ^ 64) with ha | ha
      · have haeq : (addr + min size (page - addr % page)) % 2 ^ 64 =
            addr + min size (page - addr % page) := Nat.mod_eq_of_lt ha
        rw [haeq, ih (addr + min size (page - addr % page))
          (size - min size (page - addr % page)) _ (by omega) (by omega) (by omega)]
        simp [List.flatMap_cons]
      · have hsc : size - min size (page - addr % page) = 0 := by omega
        rw [hsc, programLoop_zero_size, specPageChunks_zero_size]
        simp [List.flatMap_cons]

/-- C4 counterexample: the first-chunk comparison `offset + size < page` is
computed in wrapping uint64 arithmetic and the chunk is stored into a
uint32_t: for `program(buf, 0x10, 2^64 - 16)` with page size 256 the sum
`16 + (2^64 - 16)` wraps to 0, so the first transaction programs
0xFFFFFFF0 bytes at 0x10 (shown by running the loop for its first step),
while the claimed page-boundary split starts with
min(size, 256 - 16) = 240 bytes at 0x10. -/
theorem c4_counterexample :
    (programLoop 256 (fun _ c => c) 1 0x10 (2 ^ 64 - 16) []).2 =
      [ProgEvent.wren, ProgEvent.prog 0x10 0xFFFFFFF0, ProgEvent.poll] ∧
    (specPageChunks 256 (2 ^ 64 - 16) 0x10 (2 ^ 64 - 16)).head? =
      some (0x10, 240) := by
  decide

/-- C4 amended: for every request that does not make the uint64 chunk
arithmetic wrap - page size positive and below 2^32 (it is a uint32), size
below 2^64 minus one page, and addr + size within 2^64 - a run of `program`
with the transport reporting every chunk written in full succeeds and its
trace is exactly the page-boundary split of the claim, each chunk preceded
by a write-enable and followed by a busy-poll; and for an arbitrary
reported-count oracle, any run returning ok has verified every chunk's
reported count and produced exactly that trace.  When `offset + size`
reaches 2^64 the first chunk is instead the low 32 bits of size. -/
theorem c4_amended_theorem (page addr size : Nat) (hp : 0 < page)
    (hp32 : page < 2 ^ 32) (hps : page + size < 2 ^ 64)
    (has : addr + size ≤ 2 ^ 64) :
    program page (fun _ c => c) addr size =
      (some BdStatus.ok, specProgramTrace page addr size) ∧
    ∀ rep tr, program page rep addr size = (some BdStatus.ok, tr) →
      tr = specProgramTrace page addr size := by
  constructor
  · rw [program, specProgramTrace,
      programLoop_exact page hp hp32 size addr size [] (Nat.le_refl _) hps has]
    simp
  · intro rep tr htr
    have main : ∀ fuel addr size acc tr, size ≤ fuel → page + size < 2 ^ 64 →
        addr + size ≤ 2 ^ 64 →
        programLoop page rep fuel addr size acc = (some BdStatus.ok, tr) →
        tr = acc.reverse ++
          ((specPageChunks page fuel addr size).flatMap fun p =>
            [ProgEvent.wren, ProgEvent.prog p.1 p.2, ProgEvent.poll]) := by
      intro fuel
      induction fuel with
      | zero =>
        intro addr size acc tr h _ _ htr
        have hs : size = 0 := Nat.le_zero.mp h
        simp_all [programLoop, specPageChunks]
      | succ n ih =>
        intro addr size acc tr h hps2 has2 htr
        by_cases hs : size = 0
        · simp_all [programLoop, specPageChunks]
        · have hofs : addr % page < page := Nat.mod_lt _ hp
          have hchunk := program_chunk_eq_min page addr size hp hp32 hps2
          have hcle : min size (page - addr % page) ≤ size := Nat.min_le_left _ _
          have hc1 : 1 ≤ min size (page - addr % page) := by omega
          rw [programLoop] at htr
          simp only [hs, ite_false, hchunk] at htr
          rw [specPageChunks]
          simp only [hs, ite_false, hchunk]
          have hsz : (size + (2 ^ 64 - min size (page - addr % page))) % 2 ^ 64 =
              size - min size (page - addr % page) := by omega
          rw [hsz] at htr
          by_cases hrep : rep addr (min size (page - addr % page)) =
              min size (page - addr % page)
          · rw [if_neg (by simpa using hrep)] at htr
            rcases Nat.lt_or_ge (addr + min size (page - addr % page)) (2 ^ 64)
              with ha | ha
            · have haeq : (addr + min size (page - addr % page)) % 2 ^ 64 =
                  addr + min size (page - addr % page) := Nat.mod_eq_of_lt ha
              rw [haeq] at htr
              have := ih (addr + min size (page - addr % page))
                (size - min size (page - addr % page)) _ tr (by omega) (by omega)
                (by omega) htr
              rw [this]
              simp [List.flatMap_cons]
            · have hsc : size - min size (page - addr % page) = 0 := by omega
              rw [hsc, programLoop_zero_size] at htr
              rw [hsc, specPageChunks_zero_size]
              simp only [Prod.mk.injEq] at htr
              rw [← htr.2]
              simp [List.flatMap_cons]
          · rw [if_pos (by simpa using hrep)] at htr
            simp at htr
    have := main size addr size [] tr (Nat.le_refl _) hps has htr
    simpa [specProgramTrace] using this

/-- C4 witness: with page size 256, `program(buf, 0x1F0, 0x20)` issues
exactly two program transactions, 16 bytes at 0x1F0 and 16 bytes at 0x200,
each preceded by a write-enable and followed by a busy-poll. -/
theorem c4_amended_theorem_witness :
    0 < 256 ∧ 256 < 2 ^ 32 ∧ 256 + 0x20 < 2 ^ 64 ∧ 0x1F0 + 0x20 ≤ 2 ^ 64 ∧
    program 256 (fun _ c => c) 0x1F0 0x20 =
      (some BdStatus.ok, specProgramTrace 256 0x1F0 0x20) ∧
    specProgramTrace 256 0x1F0 0x20 =
      [ProgEvent.wren, ProgEvent.prog 0x1F0 16, ProgEvent.poll,
       ProgEvent.wren, ProgEvent.prog 0x200 16, ProgEvent.poll] :=
  ⟨by decide, by decide, by decide, by decide,
    (c4_amended_theorem 256 0x1F0 0x20 (by decide) (by decide) (by decide)
      (by decide)).1,
    by decide⟩

/-- C10: a zero-length program is a no-op: for every page size, every
reported-count oracle and every address, `program(buf, addr, 0)` returns ok
without any transport event - no write-enable, no program command and no
busy-poll. -/
theorem c10_zero_length_program (page addr : Nat) (rep : Nat → Nat → Nat) :
    program page rep addr 0 = (some BdStatus.ok, []) := by
  simp [program, programLoop]

/-- The four table locations `_sfdp_parse_sfdp_headers` fills in: address and
byte length of the Basic Parameters sub-table and of the Sector Map
sub-table (all four start out 0 in init). -/
structure SfdpHeaders where
  basicTableAddr : Nat
  basicTableSize : Nat
  sectorMapTableAddr : Nat
  sectorMapTableSize : Nat
  deriving DecidableEq

/-- The parameter-header loop of `_sfdp_parse_sfdp_headers`: at each 8-byte
header, the major version byte (byte 2) must be 1; a header with byte 0 equal
to 0 and byte 7 equal to 0xFF records the Basic Parameters sub-table (length
clamped to 64 bytes); a header with byte 0 equal to 81 and byte 7 equal to
0xFF records the Sector Map sub-table; all other headers are skipped. -/
def parseParamHeadersLoop (mem : List Nat) :
    Nat → Nat → SfdpHeaders → Option SfdpHeaders
  | 0, _, out => some out
  | n + 1, addr, out =>
    let b : Nat → Nat := fun i => mem.getD (addr + i) 0
    if b 2 ≠ 1 then none
    else
      let out2 :=
        if b 0 = 0 ∧ b 7 = 0xFF then
          { out with
            basicTableAddr := b 6 * 2 ^ 16 + b 5 * 2 ^ 8 + b 4,
            basicTableSize := if b 3 * 4 < 64 then b 3 * 4 else 64 }
        else if b 0 = 81 ∧ b 7 = 0xFF then
          { out with
            sectorMapTableAddr := b 6 * 2 ^ 16 + b 5 * 2 ^ 8 + b 4,
            sectorMapTableSize := b 3 * 4 }
        else out
      parseParamHeadersLoop mem n (addr + 8) out2

/-- `QSPIFBlockDevice::_sfdp_parse_sfdp_headers` over the SFDP address space
`mem` (transport reads assumed to succeed): checks the "SFDP" signature and
major version 1, then scans `mem[6] + 1` parameter headers starting at
address 8. -/
def sfdp_parse_sfdp_headers (mem : List Nat) : Option SfdpHeaders :=
  if mem.getD 0 0 = 0x53 ∧ mem.getD 1 0 = 0x46 ∧ mem.getD 2 0 = 0x44 ∧
      mem.getD 3 0 = 0x50 ∧ mem.getD 5 0 = 1 then
    parseParamHeadersLoop mem (mem.getD 6 0 + 1) 8 ⟨0, 0, 0, 0⟩
  else none

/-- An SFDP address space with a valid signature and two parameter headers:
a Basic Parameters header (kind LSB 0x00, MSB 0xFF, 16 words at 0x30) and a
Sector Map header with kind LSB 0x81, MSB 0xFF, 4 words at 0x80. -/
def sfdpMemHex81 : List Nat :=
  [0x53, 0x46, 0x44, 0x50, 0x00, 0x01, 0x01, 0x00,
   0x00, 0x00, 0x01, 0x10, 0x30, 0x00, 0x00, 0xFF,
   0x81, 0x00, 0x01, 0x04, 0x80, 0x00, 0x00, 0xFF]

/-- The same SFDP address space except that the second header's kind LSB is
the decimal number 81 (0x51), which is not a Sector Map kind. -/
def sfdpMemDec81 : List Nat :=
  [0x53, 0x46, 0x44, 0x50, 0x00, 0x01, 0x01, 0x00,
   0x00, 0x00, 0x01, 0x10, 0x30, 0x00, 0x00, 0xFF,
   0x51, 0x00, 0x01, 0x04, 0x80, 0x00, 0x00, 0xFF]

/-- C5: the header scan compares the kind LSB with the decimal literal 81
(0x51) instead of 0x81: a genuine Sector Map header (LSB 0x81, MSB 0xFF) is
silently skipped, leaving the sector-map address and length at 0, while a
header with LSB 0x51 is recorded as the Sector Map sub-table. -/
theorem c5_sector_map_header_code_bug :
    sfdp_parse_sfdp_headers sfdpMemHex81 = some ⟨0x30, 64, 0, 0⟩ ∧
    sfdp_parse_sfdp_headers sfdpMemDec81 = some ⟨0x30, 64, 0x80, 16⟩ := by
  decide

/-- Modelled from the spec: QSPIF_MAX_REGIONS, the region cap.  The constant
is declared in QSPIFBlockDevice.h, which is not among the sources here; the
spec fixes "up to a fixed cap of regions (e.g. 4)". -/
def QSPIF_MAX_REGIONS : Nat := 4

/-- Result of `_sfdp_parse_sector_map_table`: the region table and the
recomputed minimum common erase size. -/
structure SectorMapInfo where
  regionsCount : Nat
  regionSizes : List Nat
  regionEraseTypesBitfield : List Nat
  regionHighBoundary : List Nat
  minCommonEraseSize : Nat
  deriving DecidableEq

/-- The region loop of `_sfdp_parse_sector_map_table`: for region `i` the
32-bit little-endian word at table offset `(i+1)*4` holds the erase-type
bitmap in its low nibble and `size/256 - 1` in bits 8..31; high boundaries
are a running sum and the common erase-type bits are ANDed up. -/
def sectorMapRegionsLoop (tbl : List Nat) :
    Nat → Nat → Nat → Nat → List Nat × List Nat × List Nat × Nat
  | 0, _, _, minBits => ([], [], [], minBits)
  | n + 1, i, prev, minBits =>
    let base := (i + 1) * 4
    let word := tbl.getD base 0 + tbl.getD (base + 1) 0 * 2 ^ 8 +
      tbl.getD (base + 2) 0 * 2 ^ 16 + tbl.getD (base + 3) 0 * 2 ^ 24
    let regionSize := (Nat.land (word >>> 8) 0xFFFFFF + 1) * 256
    let bf := Nat.land (tbl.getD base 0) 0x0F
    let boundary := regionSize - 1 + prev
    let rest := sectorMapRegionsLoop tbl n (i + 1) (boundary + 1) (Nat.land minBits bf)
    (regionSize :: rest.1, bf :: rest.2.1, boundary :: rest.2.2.1, rest.2.2.2)

/-- `QSPIFBlockDevice::_sfdp_parse_sector_map_table` over the table bytes
(transport read assumed to succeed).  The gate is the code's condition
`!((b0 & 0x3) == 0x03) && (b1 == 0)`; then the region count (byte 2 plus 1)
is checked against the cap and the regions are decoded; the minimum common
erase size is the size of the lowest-indexed erase type in the intersection
of all regions' bitmaps, 0 when the intersection is empty. -/
def sfdp_parse_sector_map_table (eraseTypeSizeArr : List Nat) (tbl : List Nat) :
    Option SectorMapInfo :=
  if (¬ Nat.land (tbl.getD 0 0) 0x3 = 0x03) ∧ tbl.getD 1 0 = 0 then none
  else
    let regionsCount := tbl.getD 2 0 + 1
    if regionsCount > QSPIF_MAX_REGIONS then none
    else
      let r := sectorMapRegionsLoop tbl regionsCount 0 0 0x0F
      some
        { regionsCount := regionsCount
          regionSizes := r.1
          regionEraseTypesBitfield := r.2.1
          regionHighBoundary := r.2.2.1
          minCommonEraseSize := firstSetEraseTypeSize eraseTypeSizeArr r.2.2.2 0 }

/-- A sector-map table that is not a single map descriptor: its first word
has `(b0 & 3) = 0` and `b1 = 1`.  It declares one 64 KiB region with
erase-type bitmap 0x1. -/
def sectorMapTblNotSingle : List Nat :=
  [0xFC, 0x01, 0x00, 0x00, 0x01, 0xFF, 0x00, 0x00]

/-- C6: the descriptor gate `!((b0 & 0x3) == 0x03) && (b1 == 0)` only
rejects tables whose byte 1 is 0: this table violates the single-map
descriptor shape in both bytes (`(b0 & 3) = 0` and `b1 = 1`), yet the parse
accepts it and returns a region table instead of failing. -/
theorem c6_sector_map_gate_code_bug :
    (¬ Nat.land (sectorMapTblNotSingle.getD 0 0) 0x3 = 0x03) ∧
    sectorMapTblNotSingle.getD 1 0 ≠ 0 ∧
    sfdp_parse_sector_map_table [4096, 1, 1, 1] sectorMapTblNotSingle =
      some ⟨1, [0x10000], [0x1], [0xFFFF], 4096⟩ := by
  decide

/-- Output of `_sfdp_detect_erase_types_inst_and_size`: the legacy/derived
4 KiB erase instruction, the four per-type instructions and sizes, the
default region-0 erase-type bitmap and the minimum common erase size. -/
structure EraseTypesInfo where
  erase4kInst : Nat
  insts : List Nat
  sizes : List Nat
  bitfield0 : Nat
  minCommon : Nat
  deriving DecidableEq

/-- `local_math_power(base, exp)`: the driver's integer power routine,
computed in 32-bit `int` arithmetic - the value here is the 32-bit pattern
of the result (`result *= base` wraps at 2^32), which is then stored into
the unsigned 32-bit size arrays.  For base 2, every exponent of 32 or more
collapses to 0. -/
def local_math_power (base : Nat) : Nat → Nat
  | 0 => 1
  | e + 1 => local_math_power base e * base % 2 ^ 32

theorem local_math_power_two (e : Nat) :
    local_math_power 2 e = 2 ^ e % 2 ^ 32 := by
  induction e with
  | zero => rfl
  | succ n ih =>
    rw [local_math_power, ih]
    conv_rhs => rw [pow_succ 2 n, Nat.mul_mod]
    norm_num

theorem one_lt_local_math_power_two (e : Nat) :
    1 < local_math_power 2 e ↔ 0 < e ∧ e < 32 := by
  rw [local_math_power_two]
  constructor
  · intro h
    rcases Nat.lt_or_ge e 32 with he | he
    · have heq : 2 ^ e % 2 ^ 32 = 2 ^ e :=
        Nat.mod_eq_of_lt (Nat.pow_lt_pow_right (by norm_num) he)
      rw [heq] at h
      refine ⟨?_, he⟩
      rcases Nat.eq_zero_or_pos e with h0 | h0
      · rw [h0] at h
        exact absurd h (by norm_num)
      · exact h0
    · have heq : 2 ^ e % 2 ^ 32 = 0 :=
        Nat.mod_eq_zero_of_dvd (pow_dvd_pow 2 he)
      rw [heq] at h
      exact absurd h (by norm_num)
  · rintro ⟨h0, h32⟩
    have heq : 2 ^ e % 2 ^ 32 = 2 ^ e :=
      Nat.mod_eq_of_lt (Nat.pow_lt_pow_right (by norm_num) h32)
    rw [heq]
    exact Nat.one_lt_two_pow_iff.mpr (by omega)

/-- One iteration of the erase-type slot loop of
`_sfdp_detect_erase_types_inst_and_size`: slot `i` decodes
`size = local_math_power(2, table[28 + 2*i])` with the driver's 32-bit
power routine; the instruction defaults to 0xFF and the slot is taken as
supported when `size > 1`, in which case the instruction byte
`table[29 + 2*i]` is recorded, the running minimum common erase size is
updated, a size-4096 slot overrides the legacy 4 KiB instruction, and the
slot's bit is ORed into the region-0 bitmap. -/
def eraseTypeSlot (tbl : List Nat) (i : Nat) (s : EraseTypesInfo) : EraseTypesInfo :=
  let size := local_math_power 2 (tbl.getD (28 + 2 * i) 0)
  if 1 < size then
    let inst := tbl.getD (29 + 2 * i) 0
    { erase4kInst := if size = 4096 ∧ s.erase4kInst ≠ inst then inst else s.erase4kInst
      insts := s.insts ++ [inst]
      sizes := s.sizes ++ [size]
      bitfield0 := s.bitfield0 ||| 2 ^ i
      minCommon := if size < s.minCommon ∨ s.minCommon = 0 then size else s.minCommon }
  else
    { s with insts := s.insts ++ [0xFF], sizes := s.sizes ++ [size] }

/-- `QSPIFBlockDevice::_sfdp_detect_erase_types_inst_and_size`: the 4 KiB
erase instruction starts from the legacy byte 1; the four slots are decoded
only when the table is longer than 28 bytes.  The caller (init) has just
zeroed the region-0 bitmap and the minimum common erase size. -/
def sfdp_detect_erase_types_inst_and_size (tbl : List Nat) (tblSize : Nat) :
    EraseTypesInfo :=
  let s0 : EraseTypesInfo := ⟨tbl.getD 1 0, [], [], 0, 0⟩
  if tblSize > 28 then
    eraseTypeSlot tbl 3 (eraseTypeSlot tbl 2 (eraseTypeSlot tbl 1 (eraseTypeSlot tbl 0 s0)))
  else s0

/-- A Basic Parameters table (bytes 0..35; later bytes immaterial here)
whose erase slots are: slot 1 size 2^12 = 4096 with instruction 0x20,
slot 2 size 2^1 = 2 with instruction 0xAB, slots 3 and 4 size 2^0 = 1
(unsupported). -/
def basicTblSize2Slot : List Nat :=
  [0x00, 0x20, 0, 0, 0, 0, 0, 0,
   0, 0, 0, 0, 0, 0, 0, 0,
   0, 0, 0, 0, 0, 0, 0, 0,
   0, 0, 0, 0,
   12, 0x20, 1, 0xAB, 0, 0, 0, 0]

/-- C7 counterexample: slot 2 has size 2, which is not greater than 2, yet
the code records its instruction 0xAB, sets its bit in the region-0 bitmap
and lets it drive the minimum common erase size: the support threshold is
`size > 1`, not `size > 2`. -/
theorem c7_counterexample :
    local_math_power 2 (basicTblSize2Slot.getD 30 0) = 2 ∧
    (sfdp_detect_erase_types_inst_and_size basicTblSize2Slot 64).insts =
      [0x20, 0xAB, 0xFF, 0xFF] ∧
    (sfdp_detect_erase_types_inst_and_size basicTblSize2Slot 64).bitfield0 = 3 ∧
    (sfdp_detect_erase_types_inst_and_size basicTblSize2Slot 64).minCommon = 2 := by
  decide

/-- Spec-side predicate for the C7 amendment: `mc` is the minimum common
erase size determined by the supported sizes of `sizes` - 0 when no size is
supported (greater than 1), otherwise a supported size that is minimal among
the supported ones. -/
def MinCommonSpec (mc : Nat) (sizes : List Nat) : Prop :=
  (mc = 0 ∧ ∀ s ∈ sizes, ¬ 1 < s) ∨
  (mc ∈ sizes ∧ 1 < mc ∧ ∀ s ∈ sizes, 1 < s → mc ≤ s)

theorem eraseTypeSlot_insts (tbl : List Nat) (i : Nat) (s : EraseTypesInfo) :
    (eraseTypeSlot tbl i s).insts = s.insts ++
      [if 1 < local_math_power 2 (tbl.getD (28 + 2 * i) 0) then
        tbl.getD (29 + 2 * i) 0 else 0xFF] := by
  simp only [eraseTypeSlot]
  split_ifs <;> rfl

theorem eraseTypeSlot_sizes (tbl : List Nat) (i : Nat) (s : EraseTypesInfo) :
    (eraseTypeSlot tbl i s).sizes = s.sizes ++
      [local_math_power 2 (tbl.getD (28 + 2 * i) 0)] := by
  simp only [eraseTypeSlot]
  split_ifs <;> rfl

theorem eraseTypeSlot_bitfield0 (tbl : List Nat) (i : Nat) (s : EraseTypesInfo) :
    (eraseTypeSlot tbl i s).bitfield0 =
      if 1 < local_math_power 2 (tbl.getD (28 + 2 * i) 0) then
        s.bitfield0 ||| 2 ^ i else s.bitfield0 := by
  simp only [eraseTypeSlot]
  split_ifs <;> rfl

theorem eraseTypeSlot_minCommon (tbl : List Nat) (i : Nat) (s : EraseTypesInfo) :
    (eraseTypeSlot tbl i s).minCommon =
      if 1 < local_math_power 2 (tbl.getD (28 + 2 * i) 0) then
        (if local_math_power 2 (tbl.getD (28 + 2 * i) 0) < s.minCommon ∨
            s.minCommon = 0 then
          local_math_power 2 (tbl.getD (28 + 2 * i) 0) else s.minCommon)
      else s.minCommon := by
  simp only [eraseTypeSlot]
  split_ifs <;> rfl

theorem minCommonSpec_append (mc x : Nat) (l : List Nat) (h : MinCommonSpec mc l) :
    MinCommonSpec (if 1 < x then (if x < mc ∨ mc = 0 then x else mc) else mc)
      (l ++ [x]) := by
  unfold MinCommonSpec at h ⊢
  by_cases hc : 1 < x
  · rcases h with ⟨h0, hall⟩ | ⟨hmem, h1, hmin⟩
    · right
      rw [if_pos hc, if_pos (Or.inr h0)]
      refine ⟨by simp, hc, ?_⟩
      intro s hs hs1
      rcases List.mem_append.mp hs with hs | hs
      · exact absurd hs1 (hall s hs)
      · simp at hs; omega
    · by_cases hlt : x < mc ∨ mc = 0
      · have hxlt : x < mc := by omega
        right
        rw [if_pos hc, if_pos hlt]
        refine ⟨by simp, hc, ?_⟩
        intro s hs hs1
        rcases List.mem_append.mp hs with hs | hs
        · exact le_trans (le_of_lt hxlt) (hmin s hs hs1)
        · simp at hs; omega
      · right
        rw [if_pos hc, if_neg hlt]
        refine ⟨List.mem_append_left _ hmem, h1, ?_⟩
        intro s hs hs1
        rcases List.mem_append.mp hs with hs | hs
        · exact hmin s hs hs1
        · simp at hs; omega
  · rw [if_neg hc]
    rcases h with ⟨h0, hall⟩ | ⟨hmem, h1, hmin⟩
    · left
      refine ⟨h0, ?_⟩
      intro s hs
      rcases List.mem_append.mp hs with hs | hs
      · exact hall s hs
      · simp at hs; omega
    · right
      refine ⟨List.mem_append_left _ hmem, h1, ?_⟩
      intro s hs hs1
      rcases List.mem_append.mp hs with hs | hs
      · exact hmin s hs hs1
      · simp at hs; omega

theorem minCommonSpec_slot (tbl : List Nat) (i : Nat) (s : EraseTypesInfo)
    (h : MinCommonSpec s.minCommon s.sizes) :
    MinCommonSpec (eraseTypeSlot tbl i s).minCommon (eraseTypeSlot tbl i s).sizes := by
  rw [eraseTypeSlot_minCommon, eraseTypeSlot_sizes]
  exact minCommonSpec_append _ _ _ h

/-- C7 amended: a slot is marked supported - its instruction recorded and
its bit added to the default region bitmap - if and only if its decoded
size, computed by the driver's 32-bit integer power routine, is greater
than 1; since that routine collapses exponents of 32 and above to 0, this
is equivalent to 0 < exponent < 32.  Unsupported slots keep the
instruction 0xFF, and the minimum common erase size is the smallest
supported size (0 when none is supported). -/
theorem c7_amended_theorem (tbl : List Nat) (tblSize i : Nat)
    (h : 28 < tblSize) (hi : i < 4) :
    ((sfdp_detect_erase_types_inst_and_size tbl tblSize).bitfield0.testBit i = true ↔
      1 < local_math_power 2 (tbl.getD (28 + 2 * i) 0)) ∧
    (1 < local_math_power 2 (tbl.getD (28 + 2 * i) 0) ↔
      0 < tbl.getD (28 + 2 * i) 0 ∧ tbl.getD (28 + 2 * i) 0 < 32) ∧
    (sfdp_detect_erase_types_inst_and_size tbl tblSize).insts.getD i 0 =
      (if 1 < local_math_power 2 (tbl.getD (28 + 2 * i) 0) then
        tbl.getD (29 + 2 * i) 0 else 0xFF) ∧
    (sfdp_detect_erase_types_inst_and_size tbl tblSize).sizes =
      [local_math_power 2 (tbl.getD 28 0), local_math_power 2 (tbl.getD 30 0),
       local_math_power 2 (tbl.getD 32 0), local_math_power 2 (tbl.getD 34 0)] ∧
    MinCommonSpec (sfdp_detect_erase_types_inst_and_size tbl tblSize).minCommon
      (sfdp_detect_erase_types_inst_and_size tbl tblSize).sizes := by
  have hT : sfdp_detect_erase_types_inst_and_size tbl tblSize =
      eraseTypeSlot tbl 3 (eraseTypeSlot tbl 2 (eraseTypeSlot tbl 1
        (eraseTypeSlot tbl 0 ⟨tbl.getD 1 0, [], [], 0, 0⟩))) := by
    simp only [sfdp_detect_erase_types_inst_and_size]
    rw [if_pos h]
  refine ⟨?_, one_lt_local_math_power_two _, ?_, ?_, ?_⟩
  · rw [hT]
    simp only [eraseTypeSlot_bitfield0]
    interval_cases i <;>
      split_ifs <;>
      (first | decide | (simp only [*, iff_true, iff_false] <;> decide))
  · rw [hT]
    simp only [eraseTypeSlot_insts]
    norm_num
    interval_cases i <;> simp [List.getD_cons_zero, List.getD_cons_succ]
  · rw [hT]
    simp only [eraseTypeSlot_sizes]
    norm_num
  · rw [hT]
    refine minCommonSpec_slot _ _ _ (minCommonSpec_slot _ _ _
      (minCommonSpec_slot _ _ _ (minCommonSpec_slot _ _ _ ?_)))
    exact Or.inl ⟨rfl, by simp⟩

/-- C7 witness: the amended slot-validity characterization evaluated at slot
2 (exponent 1, size 2) of the concrete table. -/
theorem c7_amended_theorem_witness :
    28 < 64 ∧ (1 : Nat) < 4 ∧
    (((sfdp_detect_erase_types_inst_and_size basicTblSize2Slot 64).bitfield0.testBit 1 = true ↔
        1 < local_math_power 2 (basicTblSize2Slot.getD (28 + 2 * 1) 0)) ∧
      (1 < local_math_power 2 (basicTblSize2Slot.getD (28 + 2 * 1) 0) ↔
        0 < basicTblSize2Slot.getD (28 + 2 * 1) 0 ∧
          basicTblSize2Slot.getD (28 + 2 * 1) 0 < 32) ∧
      (sfdp_detect_erase_types_inst_and_size basicTblSize2Slot 64).insts.getD 1 0 =
        (if 1 < local_math_power 2 (basicTblSize2Slot.getD (28 + 2 * 1) 0) then
          basicTblSize2Slot.getD (29 + 2 * 1) 0 else 0xFF) ∧
      (sfdp_detect_erase_types_inst_and_size basicTblSize2Slot 64).sizes =
        [local_math_power 2 (basicTblSize2Slot.getD 28 0),
         local_math_power 2 (basicTblSize2Slot.getD 30 0),
         local_math_power 2 (basicTblSize2Slot.getD 32 0),
         local_math_power 2 (basicTblSize2Slot.getD 34 0)] ∧
      MinCommonSpec (sfdp_detect_erase_types_inst_and_size basicTblSize2Slot 64).minCommon
        (sfdp_detect_erase_types_inst_and_size basicTblSize2Slot 64).sizes) :=
  ⟨by decide, by decide, c7_amended_theorem basicTblSize2Slot 64 1 (by decide) (by decide)⟩

/-- The busy-poll retry cap of `_is_mem_ready`. -/
def IS_MEM_READY_MAX_RETRIES : Nat := 10000

/-- The do-while loop of `QSPIFBlockDevice::_is_mem_ready`: each iteration
sleeps, steps the retry counter by `retries--`, reads status register 1
(the n-th read being `statusRead n`), and repeats while the WIP bit (bit 0)
is set and `retries < IS_MEM_READY_MAX_RETRIES`.  The result is whether the
WIP bit was clear on the last read; `none` means the loop was still running
when the fuel ran out. -/
def is_mem_ready_loop (statusRead : Nat → Nat) : Nat → Int → Nat → Option Bool
  | 0, _, _ => none
  | fuel + 1, retries, iter =>
    let retries2 := retries - 1
    let status := statusRead iter
    if status &&& 0x1 ≠ 0 ∧ retries2 < (IS_MEM_READY_MAX_RETRIES : Int) then
      is_mem_ready_loop statusRead fuel retries2 (iter + 1)
    else some (status &&& 0x1 == 0)

/-- `QSPIFBlockDevice::_is_mem_ready`: the loop starts with `retries = 0`. -/
def is_mem_ready (statusRead : Nat → Nat) (fuel : Nat) : Option Bool :=
  is_mem_ready_loop statusRead fuel 0 0

theorem is_mem_ready_loop_busy (fuel : Nat) :
    ∀ retries iter, retries ≤ 0 →
      is_mem_ready_loop (fun _ => 0x1) fuel retries iter = none := by
  induction fuel with
  | zero => intro retries iter _; rfl
  | succ n ih =>
    intro retries iter hr
    rw [is_mem_ready_loop]
    have hcap : ((IS_MEM_READY_MAX_RETRIES : Nat) : Int) = 10000 := rfl
    rw [if_pos ⟨by decide, by rw [hcap]; omega⟩]
    exact ih (retries - 1) (iter + 1) (by omega)

/-- C8: on a device whose status register always reads with the WIP bit set,
the busy-poll never terminates, for any number of iterations: the retry
counter is stepped by `retries--` from 0, so it only becomes more negative
and `retries < IS_MEM_READY_MAX_RETRIES` never fails - the documented
10000-read cap is never reached and no not-ready result is ever produced. -/
theorem c8_busy_poll_never_hits_cap (fuel : Nat) :
    is_mem_ready (fun _ => 0x1) fuel = none :=
  is_mem_ready_loop_busy fuel 0 0 le_rfl

/-- C9 counterexample: the erase-command address for 0x1001000 (16 MiB +
4 KiB, already 4 KiB-aligned) is not the address with only its low 12 bits
zeroed: bit 24 is lost by the 0x00FFF000 mask. -/
theorem c9_counterexample :
    qspi_send_erase_command_addr 0x1001000 ≠ 0x1001000 / 2 ^ 12 * 2 ^ 12 := by
  decide

theorem testBit_fff000 (i : Nat) :
    (0xFFF000 : Nat).testBit i = (decide (12 ≤ i) && decide (i < 24)) := by
  by_cases h : i < 24
  · interval_cases i <;> decide
  · have h2 : (0xFFF000 : Nat) < 2 ^ i := by
      calc (0xFFF000 : Nat) < 2 ^ 24 := by norm_num
        _ ≤ 2 ^ i := Nat.pow_le_pow_right (by norm_num) (by omega)
    simp [Nat.testBit_lt_two_pow h2, h]

/-- C9 amended: the address sent with an erase instruction is
`addr & 0x00FFF000`: the low 12 bits are zeroed (4 KiB alignment) and bits
24 and above are zeroed as well - only bits 12..23 of the address survive,
which equals `addr mod 2^24` rounded down to a 4 KiB boundary. -/
theorem c9_amended_theorem (a : Nat) :
    qspi_send_erase_command_addr a = a % 2 ^ 24 / 2 ^ 12 * 2 ^ 12 := by
  have h1 : a % 2 ^ 24 / 2 ^ 12 * 2 ^ 12 = ((a % 2 ^ 24) >>> 12) <<< 12 := by
    rw [Nat.shiftLeft_eq, Nat.shiftRight_eq_div_pow]
  rw [qspi_send_erase_command_addr, h1]
  apply Nat.eq_of_testBit_eq
  intro i
  simp only [Nat.testBit_and, Nat.testBit_shiftLeft, Nat.testBit_shiftRight,
    Nat.testBit_mod_two_pow, testBit_fff000]
  by_cases h12 : 12 ≤ i
  · have he : 12 + (i - 12) = i := by omega
    rw [he]
    by_cases h24 : i < 24 <;> simp [h12, h24, Bool.and_comm]
  · simp [h12]
